import Mathlib

/-!
Shallow embedding of `src/index.ts` from `github-repo-settings-editor`.

The program is a linear pipeline: fetch all owned repositories via cursor
pagination (`getRepositories`), compare them against a sparse preference set
(`getNonConformingRepositories`), and optionally issue one PATCH write per
non-conforming repository (`updateRepositories` / `updateRepository`).

Modelling choices:
* A JavaScript `Preferences` object distinguishes a key that is entirely
  absent from a key that is present with the value `undefined`
  (`getPreferences` at line 186 stores explicit `undefined` for the
  "Don't enforce" choice).  `PrefEntry` keeps that three-way distinction.
* `Object.entries(preferences)` yields the entries whose key is present, in
  key insertion order.  Every `Preferences` object the program builds has its
  keys inserted in the order of the `properties` array of `getPreferences`
  (line 172), which `Setting.all` mirrors; entry order only influences the
  field insertion order of the result records.
* Network effects are embedded explicitly: the GraphQL endpoint is a function
  from cursor to `Except`-result page, the loop carries fuel (`none` = the
  loop never reached a page with `hasNextPage = false`), and the PATCH
  endpoint is a function from the write request to an `Except`-result.
* `octokit.request` serialises its parameter object with JSON semantics:
  object keys whose value is `undefined` are dropped, so the write payload is
  a record of `Option Bool` fields where `none` means "absent from the
  payload".
-/

/-- The nine boolean repository settings handled by the tool, in the order of
the `properties` array of `getPreferences` (src/index.ts line 172). -/
inductive Setting where
  | autoMergeAllowed
  | deleteBranchOnMerge
  | forkingAllowed
  | hasIssuesEnabled
  | hasProjectsEnabled
  | hasWikiEnabled
  | mergeCommitAllowed
  | rebaseMergeAllowed
  | squashMergeAllowed
deriving DecidableEq, Repr

/-- The fixed, closed list of settings, in `properties` order. -/
def Setting.all : List Setting :=
  [.autoMergeAllowed, .deleteBranchOnMerge, .forkingAllowed, .hasIssuesEnabled,
   .hasProjectsEnabled, .hasWikiEnabled, .mergeCommitAllowed, .rebaseMergeAllowed,
   .squashMergeAllowed]

/-- One entry of a JavaScript `Preferences` object: the key can be missing
from the object, present with value `undefined`, or present with a boolean. -/
inductive PrefEntry where
  | absent
  | undef
  | val (b : Bool)
deriving DecidableEq, Repr

/-- Whether the key is present in the object (so `Object.entries` lists it). -/
def PrefEntry.present : PrefEntry → Bool
  | .absent => false
  | _ => true

/-- The value a JavaScript property read returns: `undefined` (here `none`)
both for a missing key and for a key explicitly set to `undefined`. -/
def PrefEntry.toOption : PrefEntry → Option Bool
  | .val b => some b
  | _ => none

/-- The `Preferences` type of src/index.ts lines 17-27: nine optional boolean
settings. -/
structure Preferences where
  autoMergeAllowed : PrefEntry
  deleteBranchOnMerge : PrefEntry
  forkingAllowed : PrefEntry
  hasIssuesEnabled : PrefEntry
  hasProjectsEnabled : PrefEntry
  hasWikiEnabled : PrefEntry
  mergeCommitAllowed : PrefEntry
  rebaseMergeAllowed : PrefEntry
  squashMergeAllowed : PrefEntry
deriving DecidableEq, Repr

/-- Dynamic property read `preferences[key]` for a `Setting` key. -/
def Preferences.get (p : Preferences) : Setting → PrefEntry
  | .autoMergeAllowed => p.autoMergeAllowed
  | .deleteBranchOnMerge => p.deleteBranchOnMerge
  | .forkingAllowed => p.forkingAllowed
  | .hasIssuesEnabled => p.hasIssuesEnabled
  | .hasProjectsEnabled => p.hasProjectsEnabled
  | .hasWikiEnabled => p.hasWikiEnabled
  | .mergeCommitAllowed => p.mergeCommitAllowed
  | .rebaseMergeAllowed => p.rebaseMergeAllowed
  | .squashMergeAllowed => p.squashMergeAllowed

/-- The `Repository` type of src/index.ts line 10 (`Required` of the
non-conforming shape): id, name, and a concrete boolean for all 9 settings. -/
structure Repository where
  id : String
  name : String
  autoMergeAllowed : Bool
  deleteBranchOnMerge : Bool
  forkingAllowed : Bool
  hasIssuesEnabled : Bool
  hasProjectsEnabled : Bool
  hasWikiEnabled : Bool
  mergeCommitAllowed : Bool
  rebaseMergeAllowed : Bool
  squashMergeAllowed : Bool
deriving DecidableEq, Repr

/-- Dynamic property read `repo[key]` for a `Setting` key. -/
def Repository.get (r : Repository) : Setting → Bool
  | .autoMergeAllowed => r.autoMergeAllowed
  | .deleteBranchOnMerge => r.deleteBranchOnMerge
  | .forkingAllowed => r.forkingAllowed
  | .hasIssuesEnabled => r.hasIssuesEnabled
  | .hasProjectsEnabled => r.hasProjectsEnabled
  | .hasWikiEnabled => r.hasWikiEnabled
  | .mergeCommitAllowed => r.mergeCommitAllowed
  | .rebaseMergeAllowed => r.rebaseMergeAllowed
  | .squashMergeAllowed => r.squashMergeAllowed

/-- `Object.entries(preferences)` (src/index.ts line 192): the pairs
`(key, value)` for every key present in the object, in the fixed key
insertion order; a key set to `undefined` is listed with value `none`. -/
def preferenceEntries (p : Preferences) : List (Setting × Option Bool) :=
  (Setting.all.filter fun k => (p.get k).present).map fun k => (k, (p.get k).toOption)

/-- The filter predicate body of line 194:
`value !== undefined && repo[key] !== value`. -/
def prefDiffers (r : Repository) (kv : Setting × Option Bool) : Bool :=
  match kv.2 with
  | some b => r.get kv.1 != b
  | none => false

/-- The `forEach` body of lines 197-201: when the entry is defined and
differs, the key is assigned the repository's current value. -/
def diffField (r : Repository) (kv : Setting × Option Bool) : Option (Setting × Bool) :=
  match kv.2 with
  | some b => if r.get kv.1 != b then some (kv.1, r.get kv.1) else none
  | none => none

/-- The `NonConformingRepository` type of src/index.ts lines 12-15: id, name,
and the sparse setting fields assigned to the record, in assignment order. -/
structure NonConformingRepository where
  id : String
  name : String
  fields : List (Setting × Bool)
deriving DecidableEq, Repr

/-- `getNonConformingRepositories` (src/index.ts lines 191-204).  The
`forEach` issues at most one assignment per key (entry keys are distinct), so
building the record's sparse fields by `filterMap` over the entries, in entry
order, is exactly the sequence of assignments performed on `result`. -/
def getNonConformingRepositories (repositories : List Repository)
    (preferences : Preferences) : List NonConformingRepository :=
  (repositories.filter fun repo =>
      (preferenceEntries preferences).any fun kv => prefDiffers repo kv).map
    fun repo =>
      { id := repo.id, name := repo.name,
        fields := (preferenceEntries preferences).filterMap fun kv => diffField repo kv }

/-- Follows the spec's words (section 4.3 / section 8): a repository is flagged at
setting `k` when the preference entry for `k` is defined (not absent, not
undefined) and differs from the repository's current value. -/
def flaggedAt (p : Preferences) (r : Repository) (k : Setting) : Bool :=
  match (p.get k).toOption with
  | some b => r.get k != b
  | none => false

/-- Follows the spec's words: a repository appears in `evaluate`'s output iff
at least one defined preference entry differs from its corresponding field. -/
def spec_flagged (p : Preferences) (r : Repository) : Bool :=
  Setting.all.any fun k => flaggedAt p r k

/-- Follows the spec's words: the contribution of setting `k` to the
non-conforming record — present exactly when defined-and-differing, holding
the repository's current value. -/
def specFieldAt (p : Preferences) (r : Repository) (k : Setting) : Option (Setting × Bool) :=
  match (p.get k).toOption with
  | some b => if r.get k != b then some (k, r.get k) else none
  | none => none

/-- Follows the spec's words: the non-conforming record for a flagged
repository — identifier, name, and exactly the defined-and-differing fields
with the repository's current values. -/
def spec_record (p : Preferences) (r : Repository) : NonConformingRepository :=
  { id := r.id, name := r.name,
    fields := Setting.all.filterMap fun k => specFieldAt p r k }

/-- The parameter object of the `PATCH /repos/:owner/:repo` request built by
`updateRepository` (src/index.ts lines 219-232).  A field whose value is
`none` models a JavaScript `undefined`, which JSON serialisation drops from
the payload. -/
structure WriteRequest where
  owner : String
  repo : String
  has_issues : Option Bool
  has_projects : Option Bool
  has_wiki : Option Bool
  allow_forking : Option Bool
  allow_squash_merge : Option Bool
  allow_merge_commit : Option Bool
  allow_rebase_merge : Option Bool
  allow_auto_merge : Option Bool
  delete_branch_on_merge : Option Bool
deriving DecidableEq, Repr

/-- The payload field of a write request corresponding to each setting, via
the REST-name correspondence of src/index.ts lines 223-231. -/
def WriteRequest.setting (w : WriteRequest) : Setting → Option Bool
  | .hasIssuesEnabled => w.has_issues
  | .hasProjectsEnabled => w.has_projects
  | .hasWikiEnabled => w.has_wiki
  | .forkingAllowed => w.allow_forking
  | .squashMergeAllowed => w.allow_squash_merge
  | .mergeCommitAllowed => w.allow_merge_commit
  | .rebaseMergeAllowed => w.allow_rebase_merge
  | .autoMergeAllowed => w.allow_auto_merge
  | .deleteBranchOnMerge => w.delete_branch_on_merge

/-- `updateRepository` (src/index.ts lines 218-234): the single write request
it issues.  Each payload field is the plain property read of the preference
object, i.e. `undefined` (`none`) unless the entry is a defined boolean. -/
def updateRepository (login : String) (repositoryName : String)
    (preferences : Preferences) : WriteRequest :=
  { owner := login
    repo := repositoryName
    has_issues := preferences.hasIssuesEnabled.toOption
    has_projects := preferences.hasProjectsEnabled.toOption
    has_wiki := preferences.hasWikiEnabled.toOption
    allow_forking := preferences.forkingAllowed.toOption
    allow_squash_merge := preferences.squashMergeAllowed.toOption
    allow_merge_commit := preferences.mergeCommitAllowed.toOption
    allow_rebase_merge := preferences.rebaseMergeAllowed.toOption
    allow_auto_merge := preferences.autoMergeAllowed.toOption
    delete_branch_on_merge := preferences.deleteBranchOnMerge.toOption }

/-- `updateRepositories` (src/index.ts lines 214-216), request side: the
`repositories.map(repo => updateRepository(...))` call dispatches one write
request per repository (identified by name) before any outcome is awaited. -/
def updateRepositories (login : String) (repositoryNames : List String)
    (preferences : Preferences) : List WriteRequest :=
  repositoryNames.map fun n => updateRepository login n preferences

/-- `Promise.all` over already-dispatched operations: resolves with the list
of all values when every operation succeeds, and rejects with a single error
(here: the first in list order) when any operation fails. -/
def promiseAll {ε α : Type} : List (Except ε α) → Except ε (List α)
  | [] => .ok []
  | .error e :: _ => .error e
  | .ok a :: rest =>
    match promiseAll rest with
    | .error e => .error e
    | .ok others => .ok (a :: others)

/-- The value `updateRepositories` resolves or rejects with, given the
per-request outcomes `net` of the PATCH endpoint (src/index.ts line 215:
`Promise.all(repositories.map(...))`). -/
def updateRepositoriesResult (login : String) (repositoryNames : List String)
    (preferences : Preferences) (net : WriteRequest → Except String Unit) :
    Except String (List Unit) :=
  promiseAll ((updateRepositories login repositoryNames preferences).map net)

/-- Semantics of a successful single-repository update request, as the spec
describes the external endpoint (sections 4.4 and 6) and as claim C8's success
hypothesis states it: fields present in the sparse payload are set to the
payload value, fields absent from the payload are left untouched. -/
def applyWrite (w : WriteRequest) (r : Repository) : Repository :=
  { id := r.id
    name := r.name
    autoMergeAllowed := w.allow_auto_merge.getD r.autoMergeAllowed
    deleteBranchOnMerge := w.delete_branch_on_merge.getD r.deleteBranchOnMerge
    forkingAllowed := w.allow_forking.getD r.forkingAllowed
    hasIssuesEnabled := w.has_issues.getD r.hasIssuesEnabled
    hasProjectsEnabled := w.has_projects.getD r.hasProjectsEnabled
    hasWikiEnabled := w.has_wiki.getD r.hasWikiEnabled
    mergeCommitAllowed := w.allow_merge_commit.getD r.mergeCommitAllowed
    rebaseMergeAllowed := w.allow_rebase_merge.getD r.rebaseMergeAllowed
    squashMergeAllowed := w.allow_squash_merge.getD r.squashMergeAllowed }

/-- `pageInfo` of one GraphQL response page (src/index.ts lines 106-109). -/
structure PageInfo where
  hasNextPage : Bool
  endCursor : String
deriving DecidableEq, Repr

/-- One GraphQL response page (src/index.ts lines 94-132). -/
structure Page where
  pageInfo : PageInfo
  nodes : List Repository
deriving DecidableEq, Repr

/-- The `while (hasNextPage)` loop of `getRepositories` (src/index.ts lines
91-138).  `server` is the GraphQL endpoint: a function from the `after`
cursor to either a thrown error or a response page.  The loop accumulates
`repositories` (line 134) and, as the observable network behaviour, the list
of cursors it requested with.  The outer `Option` is fuel exhaustion: `none`
means the loop had not finished within `fuel` iterations; the inner `Except`
is an exception propagating out of the `await`ed request, which aborts the
whole call with no partial list. -/
def getRepositoriesLoop (server : Option String → Except String Page) :
    Nat → Option String → List Repository → List (Option String) →
    Option (Except String (List Repository × List (Option String)))
  | 0, _, _, _ => none
  | fuel + 1, endCursor, repositories, requests =>
    match server endCursor with
    | .error e => some (.error e)
    | .ok page =>
      if page.pageInfo.hasNextPage then
        getRepositoriesLoop server fuel (some page.pageInfo.endCursor)
          (repositories ++ page.nodes) (requests ++ [endCursor])
      else
        some (.ok (repositories ++ page.nodes, requests ++ [endCursor]))

/-- `getRepositories` (src/index.ts lines 88-139): run the pagination loop
from the initial `null` cursor with empty accumulators. -/
def getRepositories (server : Option String → Except String Page) (fuel : Nat) :
    Option (Except String (List Repository × List (Option String))) :=
  getRepositoriesLoop server fuel none [] []

/-- The environment serves, starting from cursor `c`, exactly the finite page
sequence `pages`: each page is returned for the cursor chained from the
previous page's `endCursor`, every page but the last reports
`hasNextPage = true`, and the last reports `hasNextPage = false`. -/
inductive ServesFrom (server : Option String → Except String Page) :
    Option String → List Page → Prop
  | last (c : Option String) (pg : Page) :
      server c = .ok pg → pg.pageInfo.hasNextPage = false → ServesFrom server c [pg]
  | step (c : Option String) (pg : Page) (rest : List Page) :
      server c = .ok pg → pg.pageInfo.hasNextPage = true →
      ServesFrom server (some pg.pageInfo.endCursor) rest → ServesFrom server c (pg :: rest)

/-- The environment serves, starting from cursor `c`, the pages `pages` (each
reporting `hasNextPage = true`) and then fails with error `e` on the next
chained request. -/
inductive FailsFrom (server : Option String → Except String Page) :
    Option String → List Page → String → Prop
  | here (c : Option String) (e : String) :
      server c = .error e → FailsFrom server c [] e
  | step (c : Option String) (pg : Page) (rest : List Page) (e : String) :
      server c = .ok pg → pg.pageInfo.hasNextPage = true →
      FailsFrom server (some pg.pageInfo.endCursor) rest e → FailsFrom server c (pg :: rest) e

/-- The main pipeline of the IIFE (src/index.ts lines 236-263), restricted to
its non-interactive data flow, with the repository-selection prompt taken on
its "enforce on all repositories" branch.  The result is the list of write
requests the run issues: a fatal fetch error propagates and no write request
is ever built (lines 241 and 259-262). -/
def mainWrites (server : Option String → Except String Page) (fuel : Nat)
    (preferences : Preferences) (login : String) (shouldUpdate : Bool) :
    Option (Except String (List WriteRequest)) :=
  match getRepositories server fuel with
  | none => none
  | some (.error e) => some (.error e)
  | some (.ok (repositories, _)) =>
    let nonConforming := getNonConformingRepositories repositories preferences
    if nonConforming.isEmpty then some (.ok [])
    else if shouldUpdate then
      some (.ok (updateRepositories login (nonConforming.map fun r => r.name) preferences))
    else some (.ok [])

/-- The three choices offered per setting by the `getPreferences` prompt
(src/index.ts lines 178-182). -/
inductive SettingChoice where
  | dontEnforce
  | yes
  | no
deriving DecidableEq, Repr

/-- How `getPreferences` stores one answered choice: the `'undefined'` string
sentinel is replaced by an explicit `undefined` value at line 186, so the key
stays present in the object. -/
def choiceEntry : SettingChoice → PrefEntry
  | .dontEnforce => .undef
  | .yes => .val true
  | .no => .val false

/-- `getPreferences` (src/index.ts lines 169-189) as a function of the user's
answers: every one of the nine keys is present in the returned object. -/
def getPreferences (c : Setting → SettingChoice) : Preferences :=
  { autoMergeAllowed := choiceEntry (c .autoMergeAllowed)
    deleteBranchOnMerge := choiceEntry (c .deleteBranchOnMerge)
    forkingAllowed := choiceEntry (c .forkingAllowed)
    hasIssuesEnabled := choiceEntry (c .hasIssuesEnabled)
    hasProjectsEnabled := choiceEntry (c .hasProjectsEnabled)
    hasWikiEnabled := choiceEntry (c .hasWikiEnabled)
    mergeCommitAllowed := choiceEntry (c .mergeCommitAllowed)
    rebaseMergeAllowed := choiceEntry (c .rebaseMergeAllowed)
    squashMergeAllowed := choiceEntry (c .squashMergeAllowed) }

/-- A concrete repository with all nine settings false. -/
def mkRepo (i n : String) : Repository :=
  { id := i, name := n,
    autoMergeAllowed := false, deleteBranchOnMerge := false, forkingAllowed := false,
    hasIssuesEnabled := false, hasProjectsEnabled := false, hasWikiEnabled := false,
    mergeCommitAllowed := false, rebaseMergeAllowed := false, squashMergeAllowed := false }

/-- The preference set with every key absent. -/
def prefsAllAbsent : Preferences :=
  { autoMergeAllowed := .absent, deleteBranchOnMerge := .absent, forkingAllowed := .absent,
    hasIssuesEnabled := .absent, hasProjectsEnabled := .absent, hasWikiEnabled := .absent,
    mergeCommitAllowed := .absent, rebaseMergeAllowed := .absent, squashMergeAllowed := .absent }

/-- The spec's section 8 scenario preference set:
squashMergeAllowed enforced true, hasWikiEnabled enforced false, rest absent. -/
def scenarioPrefs : Preferences :=
  { prefsAllAbsent with squashMergeAllowed := .val true, hasWikiEnabled := .val false }

/-- The spec's section 8 scenario repository 1. -/
def repoX : Repository :=
  { mkRepo "1" "x" with squashMergeAllowed := false, hasWikiEnabled := false }

/-- The spec's section 8 scenario repository 2. -/
def repoY : Repository :=
  { mkRepo "2" "y" with squashMergeAllowed := true, hasWikiEnabled := true }

/-- Concrete repository for witnesses. -/
def repoA : Repository := mkRepo "a1" "a"

/-- A PATCH endpoint where only the write for repository "b" fails. -/
def netBFails : WriteRequest → Except String Unit :=
  fun req => if req.repo = "b" then .error "403 forbidden" else .ok ()

/-- A PATCH endpoint where the writes for repositories "b" and "c" fail,
with distinct errors. -/
def netBCFail : WriteRequest → Except String Unit :=
  fun req =>
    if req.repo = "b" then .error "403 forbidden"
    else if req.repo = "c" then .error "429 rate limited" else .ok ()

/-- A PATCH endpoint where every write succeeds. -/
def netAllOk : WriteRequest → Except String Unit := fun _ => .ok ()

/-- Three concrete pages: 2 + 2 + 1 repositories, last page short. -/
def pg1 : Page :=
  { pageInfo := { hasNextPage := true, endCursor := "c1" },
    nodes := [mkRepo "1" "r1", mkRepo "2" "r2"] }

/-- Second concrete page. -/
def pg2 : Page :=
  { pageInfo := { hasNextPage := true, endCursor := "c2" },
    nodes := [mkRepo "3" "r3", mkRepo "4" "r4"] }

/-- Final concrete page, reporting no further page. -/
def pg3 : Page :=
  { pageInfo := { hasNextPage := false, endCursor := "c3" },
    nodes := [mkRepo "5" "r5"] }

/-- A concrete server producing the three pages along the cursor chain. -/
def server3 : Option String → Except String Page :=
  fun c =>
    match c with
    | none => .ok pg1
    | some s => if s = "c1" then .ok pg2 else if s = "c2" then .ok pg3 else .error "404"

/-- A concrete server producing one page and then failing with an
authentication error on the second request. -/
def serverFail : Option String → Except String Page :=
  fun c =>
    match c with
    | none => .ok pg1
    | some _ => .error "401 unauthorized"

/-! ### Helper lemmas -/

theorem toOption_eq_some (e : PrefEntry) (b : Bool) :
    e.toOption = some b ↔ e = .val b := by
  cases e <;> simp [PrefEntry.toOption]

theorem toOption_eq_none (e : PrefEntry) :
    e.toOption = none ↔ (e = .absent ∨ e = .undef) := by
  cases e <;> simp [PrefEntry.toOption]

theorem Setting.mem_all (k : Setting) : k ∈ Setting.all := by
  cases k <;> simp [Setting.all]

theorem entries_any_aux (p : Preferences) (r : Repository) (l : List Setting) :
    (((l.filter fun k => (p.get k).present).map fun k => (k, (p.get k).toOption)).any
        fun kv => prefDiffers r kv) = l.any fun k => flaggedAt p r k := by
  induction l with
  | nil => rfl
  | cons k t ih =>
    cases hp : p.get k with
    | absent =>
      have h1 : (p.get k).present = false := by rw [hp]; rfl
      have h3 : flaggedAt p r k = false := by simp [flaggedAt, hp, PrefEntry.toOption]
      simp [List.filter_cons, h1, h3, ih]
    | undef =>
      have h1 : (p.get k).present = true := by rw [hp]; rfl
      have h2 : (p.get k).toOption = none := by rw [hp]; rfl
      have h3 : flaggedAt p r k = false := by simp [flaggedAt, h2]
      have h4 : prefDiffers r (k, (p.get k).toOption) = false := by rw [h2]; rfl
      simp [List.filter_cons, h1, h3, h4, ih]
    | val b =>
      have h1 : (p.get k).present = true := by rw [hp]; rfl
      have h2 : (p.get k).toOption = some b := by rw [hp]; rfl
      have h3 : flaggedAt p r k = (r.get k != b) := by simp [flaggedAt, h2]
      have h4 : prefDiffers r (k, (p.get k).toOption) = (r.get k != b) := by rw [h2]; rfl
      simp [List.filter_cons, h1, h3, h4, ih]

theorem entries_any (p : Preferences) (r : Repository) :
    ((preferenceEntries p).any fun kv => prefDiffers r kv) = spec_flagged p r :=
  entries_any_aux p r Setting.all

theorem entries_filterMap_aux (p : Preferences) (r : Repository) (l : List Setting) :
    (((l.filter fun k => (p.get k).present).map fun k => (k, (p.get k).toOption)).filterMap
        fun kv => diffField r kv) = l.filterMap fun k => specFieldAt p r k := by
  induction l with
  | nil => rfl
  | cons k t ih =>
    cases hp : p.get k with
    | absent =>
      have h1 : (p.get k).present = false := by rw [hp]; rfl
      have h3 : specFieldAt p r k = none := by simp [specFieldAt, hp, PrefEntry.toOption]
      simp [List.filter_cons, h1, h3, ih]
    | undef =>
      have h1 : (p.get k).present = true := by rw [hp]; rfl
      have h2 : (p.get k).toOption = none := by rw [hp]; rfl
      have h3 : specFieldAt p r k = none := by simp [specFieldAt, h2]
      have h4 : diffField r (k, (p.get k).toOption) = none := by rw [h2]; rfl
      simp [List.filter_cons, h1, h3, h4, ih]
    | val b =>
      have h1 : (p.get k).present = true := by rw [hp]; rfl
      have h2 : (p.get k).toOption = some b := by rw [hp]; rfl
      cases hgb : r.get k != b with
      | false =>
        have h3 : specFieldAt p r k = none := by simp [specFieldAt, h2, hgb]
        have h4 : diffField r (k, (p.get k).toOption) = none := by
          rw [h2]; simp [diffField, hgb]
        simp [List.filter_cons, h1, h3, h4, ih]
      | true =>
        have h3 : specFieldAt p r k = some (k, r.get k) := by simp [specFieldAt, h2, hgb]
        have h4 : diffField r (k, (p.get k).toOption) = some (k, r.get k) := by
          rw [h2]; simp [diffField, hgb]
        simp [List.filter_cons, h1, h3, h4, ih]

theorem entries_filterMap (p : Preferences) (r : Repository) :
    ((preferenceEntries p).filterMap fun kv => diffField r kv) =
      Setting.all.filterMap fun k => specFieldAt p r k :=
  entries_filterMap_aux p r Setting.all

theorem getNonConforming_eq (repositories : List Repository) (p : Preferences) :
    getNonConformingRepositories repositories p =
      (repositories.filter fun r => spec_flagged p r).map fun r => spec_record p r := by
  unfold getNonConformingRepositories
  simp only [entries_any, entries_filterMap, spec_record]

theorem spec_flagged_iff (p : Preferences) (r : Repository) :
    spec_flagged p r = true ↔ ∃ k b, (p.get k).toOption = some b ∧ r.get k ≠ b := by
  unfold spec_flagged
  rw [List.any_eq_true]
  constructor
  · rintro ⟨k, -, hk⟩
    unfold flaggedAt at hk
    cases h2 : (p.get k).toOption with
    | none => rw [h2] at hk; simp at hk
    | some b =>
      rw [h2] at hk
      exact ⟨k, b, h2, by simpa using hk⟩
  · rintro ⟨k, b, h2, hb⟩
    refine ⟨k, Setting.mem_all k, ?_⟩
    unfold flaggedAt
    rw [h2]
    simpa using hb

theorem spec_record_fields_mem (p : Preferences) (r : Repository) (k : Setting) (v : Bool) :
    (k, v) ∈ (spec_record p r).fields ↔ ((p.get k).toOption = some (!v) ∧ r.get k = v) := by
  unfold spec_record
  simp only [List.mem_filterMap]
  constructor
  · rintro ⟨a, -, ha⟩
    unfold specFieldAt at ha
    cases h2 : (p.get a).toOption with
    | none => rw [h2] at ha; simp at ha
    | some b =>
      rw [h2] at ha
      by_cases hgb : r.get a = b
      · have hf : (r.get a != b) = false := by simp [hgb]
        simp [hf] at ha
      · have hne : (r.get a != b) = true := by simp [hgb]
        simp only [hne, if_true] at ha
        simp only [Option.some.injEq, Prod.mk.injEq] at ha
        obtain ⟨hak, hav⟩ := ha
        subst hak
        refine ⟨?_, hav⟩
        have hbv : b = !v := by
          rw [hav] at hgb
          cases v <;> cases b <;> simp_all
        rw [h2, hbv]
  · rintro ⟨h2, hv⟩
    refine ⟨k, Setting.mem_all k, ?_⟩
    unfold specFieldAt
    rw [h2]
    have hne : (r.get k != !v) = true := by rw [hv]; cases v <;> rfl
    simp [hne, hv]

theorem spec_flagged_fields_ne_nil (p : Preferences) (r : Repository)
    (h : spec_flagged p r = true) : (spec_record p r).fields ≠ [] := by
  obtain ⟨k, b, h2, hb⟩ := (spec_flagged_iff p r).mp h
  have hb2 : b = !(r.get k) := by cases hrk : r.get k <;> cases b <;> simp_all
  have : (k, r.get k) ∈ (spec_record p r).fields := by
    rw [spec_record_fields_mem]
    exact ⟨by rw [h2, hb2], rfl⟩
  exact List.ne_nil_of_mem this

/-! ### Claim theorems -/

/-- C1: a repository appears in the output of `getNonConformingRepositories`
iff at least one defined (non-undefined) preference entry differs from its
corresponding field; flagged repositories keep the input's relative order
(the output is exactly the flagged sublist, mapped to its records, in input
order), and a preference set with every entry absent yields an empty output
for any input. -/
theorem evaluate_flags_iff_defined_diff (repositories : List Repository) (p : Preferences) :
    getNonConformingRepositories repositories p =
        ((repositories.filter fun r => spec_flagged p r).map fun r => spec_record p r) ∧
      (∀ r : Repository,
        spec_flagged p r = true ↔ ∃ k b, (p.get k).toOption = some b ∧ r.get k ≠ b) ∧
      ((∀ k, p.get k = PrefEntry.absent) → getNonConformingRepositories repositories p = []) := by
  refine ⟨getNonConforming_eq repositories p, fun r => spec_flagged_iff p r, fun h => ?_⟩
  rw [getNonConforming_eq]
  have hflag : ∀ r : Repository, spec_flagged p r = false := by
    intro r
    rw [← Bool.not_eq_true, spec_flagged_iff]
    rintro ⟨k, b, h2, -⟩
    rw [h k] at h2
    simp [PrefEntry.toOption] at h2
  have : (repositories.filter fun r => spec_flagged p r) = [] :=
    List.filter_eq_nil_iff.mpr fun r _ => by simp [hflag r]
  rw [this]
  rfl

/-- C1 witness: the theorem instantiated at a concrete repository and the
all-absent preference set. -/
theorem evaluate_flags_iff_defined_diff_witness :
    getNonConformingRepositories [repoA] prefsAllAbsent = [] :=
  (evaluate_flags_iff_defined_diff [repoA] prefsAllAbsent).2.2 fun k => by
    cases k <;> rfl

/-- C2: every record in the output of `getNonConformingRepositories` comes
from an input repository and carries its id, its name, and exactly the
setting fields that are defined in the preference set and differ from the
repository's value — each holding the repository's current value — and the
record never has the id/name-only shape. -/
theorem nonconforming_record_exact_fields (repositories : List Repository) (p : Preferences)
    (rec : NonConformingRepository)
    (hrec : rec ∈ getNonConformingRepositories repositories p) :
    ∃ r, r ∈ repositories ∧ rec.id = r.id ∧ rec.name = r.name ∧
      (∀ k v, (k, v) ∈ rec.fields ↔ ((p.get k).toOption = some (!v) ∧ r.get k = v)) ∧
      rec.fields ≠ [] := by
  rw [getNonConforming_eq] at hrec
  obtain ⟨r, hr, hrec⟩ := List.mem_map.mp hrec
  obtain ⟨hrmem, hrflag⟩ := List.mem_filter.mp hr
  subst hrec
  exact ⟨r, hrmem, rfl, rfl, fun k v => spec_record_fields_mem p r k v,
    spec_flagged_fields_ne_nil p r hrflag⟩

/-- C2 witness: the spec's section 8 scenario, first output record. -/
theorem nonconforming_record_exact_fields_witness :
    ∃ r, r ∈ [repoX, repoY] ∧
      (NonConformingRepository.mk "1" "x" [(.squashMergeAllowed, false)]).id = r.id ∧
      (NonConformingRepository.mk "1" "x" [(.squashMergeAllowed, false)]).name = r.name ∧
      (∀ k v, (k, v) ∈ (NonConformingRepository.mk "1" "x" [(.squashMergeAllowed, false)]).fields ↔
        ((scenarioPrefs.get k).toOption = some (!v) ∧ r.get k = v)) ∧
      (NonConformingRepository.mk "1" "x" [(.squashMergeAllowed, false)]).fields ≠ [] :=
  nonconforming_record_exact_fields [repoX, repoY] scenarioPrefs
    (NonConformingRepository.mk "1" "x" [(.squashMergeAllowed, false)]) (by decide)

/-- Sanity check of the spec's section 8 scenario: the full expected output. -/
theorem scenario_eval :
    getNonConformingRepositories [repoX, repoY] scenarioPrefs =
      [NonConformingRepository.mk "1" "x" [(.squashMergeAllowed, false)],
       NonConformingRepository.mk "2" "y" [(.hasWikiEnabled, true)]] := by
  decide

/-- C9: every setting field present in an output record holds exactly the
boolean negation of the corresponding defined preference value. -/
theorem output_field_negates_preference (repositories : List Repository) (p : Preferences)
    (rec : NonConformingRepository) (k : Setting) (v : Bool)
    (hrec : rec ∈ getNonConformingRepositories repositories p)
    (hkv : (k, v) ∈ rec.fields) :
    (p.get k).toOption = some (!v) := by
  rw [getNonConforming_eq] at hrec
  obtain ⟨r, -, hrec⟩ := List.mem_map.mp hrec
  subst hrec
  exact ((spec_record_fields_mem p r k v).mp hkv).1

/-- C9 witness: the scenario's second record carries `hasWikiEnabled = true`,
the negation of the enforced `false`. -/
theorem output_field_negates_preference_witness :
    (scenarioPrefs.get .hasWikiEnabled).toOption = some (!true) :=
  output_field_negates_preference [repoX, repoY] scenarioPrefs
    (NonConformingRepository.mk "2" "y" [(.hasWikiEnabled, true)]) .hasWikiEnabled true
    (by decide) (by decide)

theorem spec_flagged_toOption_congr (p q : Preferences)
    (h : ∀ k, (p.get k).toOption = (q.get k).toOption) (r : Repository) :
    spec_flagged p r = spec_flagged q r := by
  unfold spec_flagged
  have hfn : (fun k => flaggedAt p r k) = fun k => flaggedAt q r k := by
    funext k
    unfold flaggedAt
    rw [h k]
  rw [hfn]

theorem spec_record_toOption_congr (p q : Preferences)
    (h : ∀ k, (p.get k).toOption = (q.get k).toOption) (r : Repository) :
    spec_record p r = spec_record q r := by
  unfold spec_record
  have hfn : (fun k => specFieldAt p r k) = fun k => specFieldAt q r k := by
    funext k
    unfold specFieldAt
    rw [h k]
  rw [hfn]

/-- C10: a preferences object with a key present but set to `undefined`
behaves exactly like one with the key absent — more generally, any two
preference objects whose property reads agree produce the same evaluator
output and the same write request. -/
theorem undef_entry_equals_absent (p q : Preferences)
    (h : ∀ k, (p.get k).toOption = (q.get k).toOption)
    (repositories : List Repository) (login repositoryName : String) :
    getNonConformingRepositories repositories p = getNonConformingRepositories repositories q ∧
      updateRepository login repositoryName p = updateRepository login repositoryName q := by
  constructor
  · rw [getNonConforming_eq, getNonConforming_eq]
    have hf : (fun r => spec_flagged p r) = fun r => spec_flagged q r :=
      funext fun r => spec_flagged_toOption_congr p q h r
    have hg : (fun r => spec_record p r) = fun r => spec_record q r :=
      funext fun r => spec_record_toOption_congr p q h r
    rw [hf, hg]
  · unfold updateRepository
    have h1 := h .hasIssuesEnabled
    have h2 := h .hasProjectsEnabled
    have h3 := h .hasWikiEnabled
    have h4 := h .forkingAllowed
    have h5 := h .squashMergeAllowed
    have h6 := h .mergeCommitAllowed
    have h7 := h .rebaseMergeAllowed
    have h8 := h .autoMergeAllowed
    have h9 := h .deleteBranchOnMerge
    simp only [Preferences.get] at h1 h2 h3 h4 h5 h6 h7 h8 h9
    rw [h1, h2, h3, h4, h5, h6, h7, h8, h9]

/-- C10 witness: the preferences object `getPreferences` builds when the user
answers "Don't enforce" everywhere (all keys present with value `undefined`)
behaves exactly like the all-absent object. -/
theorem undef_entry_equals_absent_witness :
    getNonConformingRepositories [repoX, repoY] (getPreferences fun _ => .dontEnforce) =
        getNonConformingRepositories [repoX, repoY] prefsAllAbsent ∧
      updateRepository "me" "x" (getPreferences fun _ => .dontEnforce) =
        updateRepository "me" "x" prefsAllAbsent :=
  undef_entry_equals_absent (getPreferences fun _ => .dontEnforce) prefsAllAbsent
    (fun k => by cases k <;> rfl) [repoX, repoY] "me" "x"

/-- C4: the single write request built by `updateRepository` addresses the
given owner and repository and sets exactly the settings whose preference
entry is a defined boolean, to that boolean; a setting whose entry is absent
or explicitly undefined is absent (`none`) from the payload, so the remote
value is left untouched rather than coerced to false. -/
theorem updateRepository_payload_exact (login repositoryName : String)
    (p : Preferences) (k : Setting) (b : Bool) :
    ((updateRepository login repositoryName p).setting k = some b ↔ p.get k = .val b) ∧
      ((updateRepository login repositoryName p).setting k = none ↔
        (p.get k = .absent ∨ p.get k = .undef)) ∧
      (updateRepository login repositoryName p).owner = login ∧
      (updateRepository login repositoryName p).repo = repositoryName := by
  cases k <;>
    simp only [updateRepository, WriteRequest.setting, Preferences.get] <;>
    exact ⟨toOption_eq_some _ b, toOption_eq_none _, trivial, trivial⟩

/-- C4 witness: the theorem instantiated at the scenario preference set and
the squash-merge setting. -/
theorem updateRepository_payload_exact_witness :
    ((updateRepository "me" "x" scenarioPrefs).setting .squashMergeAllowed = some true ↔
        scenarioPrefs.get .squashMergeAllowed = .val true) ∧
      ((updateRepository "me" "x" scenarioPrefs).setting .squashMergeAllowed = none ↔
        (scenarioPrefs.get .squashMergeAllowed = .absent ∨
          scenarioPrefs.get .squashMergeAllowed = .undef)) ∧
      (updateRepository "me" "x" scenarioPrefs).owner = "me" ∧
      (updateRepository "me" "x" scenarioPrefs).repo = "x" :=
  updateRepository_payload_exact "me" "x" scenarioPrefs .squashMergeAllowed true

theorem applyWrite_get (w : WriteRequest) (r : Repository) (k : Setting) :
    (applyWrite w r).get k = (w.setting k).getD (r.get k) := by
  cases k <;> rfl

theorem updateRepository_setting (login repositoryName : String) (p : Preferences)
    (k : Setting) :
    (updateRepository login repositoryName p).setting k = (p.get k).toOption := by
  cases k <;> rfl

theorem flagged_after_apply (login repositoryName : String) (p : Preferences)
    (r : Repository) (k : Setting) :
    flaggedAt p (applyWrite (updateRepository login repositoryName p) r) k = false := by
  unfold flaggedAt
  cases h2 : (p.get k).toOption with
  | none => rfl
  | some b =>
    rw [applyWrite_get, updateRepository_setting, h2]
    simp

/-- C8: if the write issued by `updateRepository` succeeds — the remote
state's defined settings now equal the preference set's defined values and
all other fields are unchanged — then re-evaluating the updated snapshots
against the same preference set yields full conformance: no repository
appears in the output any more. -/
theorem update_then_evaluate_conforms (login : String) (p : Preferences)
    (repositories : List Repository) :
    getNonConformingRepositories
        (repositories.map fun r => applyWrite (updateRepository login r.name p) r) p = [] := by
  rw [getNonConforming_eq]
  have hnil : ((repositories.map fun r => applyWrite (updateRepository login r.name p) r).filter
      fun r => spec_flagged p r) = [] := by
    refine List.filter_eq_nil_iff.mpr ?_
    intro r' hr'
    obtain ⟨r, -, hr⟩ := List.mem_map.mp hr'
    subst hr
    simp [spec_flagged, Setting.all, flagged_after_apply]
  rw [hnil]
  rfl

theorem promiseAll_all_ok {l : List (Except String Unit)}
    (h : ∀ x ∈ l, x = .ok ()) : promiseAll l = .ok (l.map fun _ => ()) := by
  induction l with
  | nil => rfl
  | cons x t ih =>
    have hx : x = .ok () := h x (List.mem_cons_self x t)
    subst hx
    rw [List.map_cons]
    unfold promiseAll
    rw [ih fun y hy => h y (List.mem_cons_of_mem _ hy)]

theorem promiseAll_error {l : List (Except String Unit)} {e : String}
    (h : promiseAll l = .error e) : ∃ x ∈ l, x = .error e := by
  induction l with
  | nil => simp [promiseAll] at h
  | cons x t ih =>
    cases x with
    | error e2 =>
      unfold promiseAll at h
      injection h with h
      exact ⟨.error e2, List.mem_cons_self _ _, by rw [h]⟩
    | ok a =>
      unfold promiseAll at h
      cases hrec : promiseAll t with
      | error e2 =>
        rw [hrec] at h
        injection h with h
        subst h
        obtain ⟨x, hx, hxe⟩ := ih hrec
        exact ⟨x, List.mem_cons_of_mem _ hx, hxe⟩
      | ok others => rw [hrec] at h; simp at h

/-- C3 counterexample: with three repositories a, b, c where only b's write
fails, and alternatively where b's and c's writes both fail, the aggregated
`Promise.all` result of `updateRepositories` is the same single rejection in
both runs — even though c's write request was dispatched and had a different
outcome.  So the operation's overall result does not report, for each
repository in the input list, whether its write succeeded or the specific
failure encountered: c's outcome is silently swallowed. -/
theorem updateRepositories_swallows_outcome :
    updateRepositoriesResult "me" ["a", "b", "c"] scenarioPrefs netBFails =
        updateRepositoriesResult "me" ["a", "b", "c"] scenarioPrefs netBCFail ∧
      updateRepository "me" "c" scenarioPrefs ∈
        updateRepositories "me" ["a", "b", "c"] scenarioPrefs ∧
      netBFails (updateRepository "me" "c" scenarioPrefs) = .ok () ∧
      netBCFail (updateRepository "me" "c" scenarioPrefs) = .error "429 rate limited" := by
  refine ⟨rfl, ?_, rfl, rfl⟩
  simp [updateRepositories]

/-- C3 amended: every repository in the batch gets its own write request,
dispatched regardless of the other repositories' outcomes (the request list
depends only on the login, the names and the preferences, so one write's
failure cannot prevent another's request); if every write succeeds the batch
resolves with one value per repository; but when any write fails the overall
result is a single rejection carrying one failing write's error, so
per-repository outcomes are not reported. -/
theorem updateRepositories_dispatch_and_first_error (login : String)
    (repositoryNames : List String) (p : Preferences)
    (net : WriteRequest → Except String Unit) :
    (updateRepositories login repositoryNames p).length = repositoryNames.length ∧
      (∀ n ∈ repositoryNames,
        updateRepository login n p ∈ updateRepositories login repositoryNames p) ∧
      ((∀ req ∈ updateRepositories login repositoryNames p, net req = .ok ()) →
        updateRepositoriesResult login repositoryNames p net =
          .ok ((updateRepositories login repositoryNames p).map fun _ => ())) ∧
      (∀ e, updateRepositoriesResult login repositoryNames p net = .error e →
        ∃ req ∈ updateRepositories login repositoryNames p, net req = .error e) := by
  refine ⟨List.length_map _ _, ?_, ?_, ?_⟩
  · intro n hn
    exact List.mem_map.mpr ⟨n, hn, rfl⟩
  · intro hok
    unfold updateRepositoriesResult
    have hall : ∀ x ∈ (updateRepositories login repositoryNames p).map net, x = .ok () := by
      intro x hx
      obtain ⟨req, hreq, hx2⟩ := List.mem_map.mp hx
      subst hx2
      exact hok req hreq
    rw [promiseAll_all_ok hall, List.map_map]
  · intro e he
    unfold updateRepositoriesResult at he
    obtain ⟨x, hx, hxe⟩ := promiseAll_error he
    obtain ⟨req, hreq, hx⟩ := List.mem_map.mp hx
    subst hx
    exact ⟨req, hreq, hxe⟩

/-- C3 amended witness: the amended theorem instantiated at the concrete
three-repository batch with the endpoint failing only on b. -/
theorem updateRepositories_dispatch_and_first_error_witness :
    (updateRepositories "me" ["a", "b", "c"] scenarioPrefs).length = (["a", "b", "c"] : List String).length ∧
      (∀ n ∈ (["a", "b", "c"] : List String),
        updateRepository "me" n scenarioPrefs ∈ updateRepositories "me" ["a", "b", "c"] scenarioPrefs) ∧
      ((∀ req ∈ updateRepositories "me" ["a", "b", "c"] scenarioPrefs, netBFails req = .ok ()) →
        updateRepositoriesResult "me" ["a", "b", "c"] scenarioPrefs netBFails =
          .ok ((updateRepositories "me" ["a", "b", "c"] scenarioPrefs).map fun _ => ())) ∧
      (∀ e, updateRepositoriesResult "me" ["a", "b", "c"] scenarioPrefs netBFails = .error e →
        ∃ req ∈ updateRepositories "me" ["a", "b", "c"] scenarioPrefs, netBFails req = .error e) :=
  updateRepositories_dispatch_and_first_error "me" ["a", "b", "c"] scenarioPrefs netBFails

theorem ServesFrom.ne_nil {server : Option String → Except String Page}
    {c : Option String} {pages : List Page} (h : ServesFrom server c pages) :
    pages ≠ [] := by
  cases h <;> simp

theorem loop_serves (server : Option String → Except String Page)
    (pages : List Page) (c : Option String) (h : ServesFrom server c pages) :
    ∀ (fuel : Nat), pages.length ≤ fuel →
      ∀ (acc : List Repository) (reqs : List (Option String)),
        getRepositoriesLoop server fuel c acc reqs =
          some (.ok (acc ++ (pages.map Page.nodes).flatten,
            reqs ++ c :: (pages.dropLast.map fun pg => some pg.pageInfo.endCursor))) := by
  induction h with
  | last c pg hok hlast =>
    intro fuel hfuel acc reqs
    cases fuel with
    | zero => simp at hfuel
    | succ f => simp [getRepositoriesLoop, hok, hlast]
  | step c pg rest hok hnext hrest ih =>
    intro fuel hfuel acc reqs
    cases fuel with
    | zero => simp at hfuel
    | succ f =>
      have hlen : rest.length ≤ f := by
        simp only [List.length_cons] at hfuel
        omega
      obtain ⟨r2, rest2, hrr⟩ := List.exists_cons_of_ne_nil hrest.ne_nil
      subst hrr
      simp only [getRepositoriesLoop, hok, hnext, if_true]
      rw [ih f hlen (acc ++ pg.nodes) (reqs ++ [c])]
      simp [List.append_assoc, List.dropLast_cons₂]

theorem loop_fails (server : Option String → Except String Page)
    (pages : List Page) (c : Option String) (e : String)
    (h : FailsFrom server c pages e) :
    ∀ (fuel : Nat), pages.length < fuel →
      ∀ (acc : List Repository) (reqs : List (Option String)),
        getRepositoriesLoop server fuel c acc reqs = some (.error e) := by
  induction h with
  | here c e hc =>
    intro fuel hfuel acc reqs
    cases fuel with
    | zero => simp at hfuel
    | succ f => simp [getRepositoriesLoop, hc]
  | step c pg rest e hok hnext hrest ih =>
    intro fuel hfuel acc reqs
    cases fuel with
    | zero => simp at hfuel
    | succ f =>
      have hlen : rest.length < f := by
        simp only [List.length_cons] at hfuel
        omega
      simp [getRepositoriesLoop, hok, hnext, ih f hlen]

/-- C5: when the server serves a finite page sequence jointly containing N
distinct repositories, `getRepositories` returns exactly those N records — no
duplicates, no omissions — in server-provided order, i.e. the concatenation
of the pages' node lists in page order. -/
theorem pagination_complete_no_dup (server : Option String → Except String Page)
    (pages : List Page) (fuel N : Nat)
    (hserve : ServesFrom server none pages) (hfuel : pages.length ≤ fuel)
    (hN : ((pages.map Page.nodes).flatten).length = N)
    (hnodup : ((pages.map Page.nodes).flatten).Nodup) :
    ∃ result reqs, getRepositories server fuel = some (.ok (result, reqs)) ∧
      result = (pages.map Page.nodes).flatten ∧ result.length = N ∧ result.Nodup := by
  have h := loop_serves server pages none hserve fuel hfuel [] []
  refine ⟨(pages.map Page.nodes).flatten,
    none :: (pages.dropLast.map fun pg => some pg.pageInfo.endCursor), ?_, rfl, hN, hnodup⟩
  simpa [getRepositories] using h

/-- C6: the pagination loop terminates for any finite page sequence whose
last page reports no further page — the number of requests equals the number
of pages, and the request cursors are exactly `null` followed by each
previous response's `endCursor`, so the loop never reuses a stale cursor and
assumes nothing about a fixed page count. -/
theorem pagination_terminates_cursor_chain (server : Option String → Except String Page)
    (pages : List Page) (fuel : Nat)
    (hserve : ServesFrom server none pages) (hfuel : pages.length ≤ fuel) :
    getRepositories server fuel =
        some (.ok ((pages.map Page.nodes).flatten,
          none :: (pages.dropLast.map fun pg => some pg.pageInfo.endCursor))) ∧
      (none :: (pages.dropLast.map fun pg => some pg.pageInfo.endCursor)).length =
        pages.length := by
  constructor
  · have h := loop_serves server pages none hserve fuel hfuel [] []
    simpa [getRepositories] using h
  · obtain ⟨pg, rest, hrr⟩ := List.exists_cons_of_ne_nil hserve.ne_nil
    subst hrr
    simp [List.length_dropLast]

/-- C7: a transport or authentication failure at any point of the pagination
aborts the whole fetch — `getRepositories` surfaces the error and returns no
partial repository list — and the whole run stops there: the pipeline result
is the same fatal error and no write request is built. -/
theorem fetch_failure_aborts_run (server : Option String → Except String Page)
    (pages : List Page) (e : String) (fuel : Nat) (p : Preferences)
    (login : String) (shouldUpdate : Bool)
    (hfail : FailsFrom server none pages e) (hfuel : pages.length < fuel) :
    getRepositories server fuel = some (.error e) ∧
      mainWrites server fuel p login shouldUpdate = some (.error e) := by
  have hget : getRepositories server fuel = some (.error e) :=
    loop_fails server pages none e hfail fuel hfuel [] []
  refine ⟨hget, ?_⟩
  unfold mainWrites
  rw [hget]

/-- The concrete three-page server serves its pages along the cursor chain. -/
theorem serves3 : ServesFrom server3 none [pg1, pg2, pg3] :=
  ServesFrom.step none pg1 [pg2, pg3] rfl rfl
    (ServesFrom.step (some "c1") pg2 [pg3] rfl rfl
      (ServesFrom.last (some "c2") pg3 rfl rfl))

/-- The failing server serves one page and then rejects. -/
theorem fails1 : FailsFrom serverFail none [pg1] "401 unauthorized" :=
  FailsFrom.step none pg1 [] "401 unauthorized" rfl rfl
    (FailsFrom.here (some "c1") "401 unauthorized" rfl)

/-- C5 witness: five repositories across three pages (the last one short)
are all returned, without duplication, in page order. -/
theorem pagination_complete_no_dup_witness :
    ∃ result reqs, getRepositories server3 5 = some (.ok (result, reqs)) ∧
      result = (([pg1, pg2, pg3].map Page.nodes).flatten) ∧ result.length = 5 ∧
      result.Nodup :=
  pagination_complete_no_dup server3 [pg1, pg2, pg3] 5 5 serves3 (by decide)
    (by decide) (by decide)

/-- C6 witness: with exactly as much fuel as pages, the loop terminates and
requests with `null`, then "c1", then "c2". -/
theorem pagination_terminates_cursor_chain_witness :
    getRepositories server3 3 =
        some (.ok ((([pg1, pg2, pg3]).map Page.nodes).flatten,
          none :: (([pg1, pg2, pg3]).dropLast.map fun pg => some pg.pageInfo.endCursor))) ∧
      (none :: (([pg1, pg2, pg3]).dropLast.map fun pg => some pg.pageInfo.endCursor)).length =
        ([pg1, pg2, pg3] : List Page).length :=
  pagination_terminates_cursor_chain server3 [pg1, pg2, pg3] 3 serves3 (by decide)

/-- C7 witness: an authentication failure on the second page aborts the fetch
and the run issues no write. -/
theorem fetch_failure_aborts_run_witness :
    getRepositories serverFail 9 = some (.error "401 unauthorized") ∧
      mainWrites serverFail 9 scenarioPrefs "me" true = some (.error "401 unauthorized") :=
  fetch_failure_aborts_run serverFail [pg1] "401 unauthorized" 9 scenarioPrefs "me" true
    fails1 (by decide)
